import Mathlib

/-!
Verification development for the WELM (Weighted Extreme Learning Machine) regressor
implemented in WELM.py.  Matrices are embedded as Mathlib matrices over the rationals
(the code's float arithmetic idealised as exact arithmetic, with the Euclidean metrics
landing in the reals); the least-squares solver np.linalg.lstsq is an abstract
parameter, since the claims under study only concern the linear systems handed to it.
Shape validation, which the Python code performs on the integer components of numpy
shape tuples, is embedded at the natural-number level.
-/

namespace Welm

open Matrix

/-- Matrices over the rationals, indexed the numpy way: first index row, second column. -/
abbrev Mtx (m n : ℕ) : Type := Matrix (Fin m) (Fin n) ℚ

namespace ActFunc

/-- Triangular activation, np.clip(1.0 - np.fabs(x), 0.0, 1.0) from WELM.py line 12
(np.clip(v, lo, hi) computes min (max v lo) hi). -/
def tribas (x : ℚ) : ℚ := min (max (1 - |x|) 0) 1

/-- Inverse triangular activation, np.clip(np.fabs(x), 0.0, 1.0) from WELM.py line 15. -/
def inv_tribas (x : ℚ) : ℚ := min (max |x| 0) 1

/-- Hard limit activation, (x > 0) * 1.0 from WELM.py line 21. -/
def hardlim (x : ℚ) : ℚ := if 0 < x then 1 else 0

/-- Soft limit activation, np.clip(x, 0.0, 1.0) from WELM.py line 23. -/
def softlim (x : ℚ) : ℚ := min (max x 0) 1

end ActFunc

/-- Failures surfaced by WELM.py: invalidShape for the assert statements (an
AssertionError at the Python level; the spec calls the kind InvalidShape), and
valueError for the ValueError numpy raises inside the hidden-layer builder when
np.ones is asked for a negative dimension, which happens exactly on a 0-row data
matrix (WELM.py lines 163-167). -/
inductive WelmError
  | invalidShape
  | valueError
deriving DecidableEq, Repr

/-- Models the CPython evaluation of the expression a is b where a and b are
nonnegative Python integers read from two independently constructed numpy shape
tuples.  CPython interns exactly the integers from -5 to 256, so for such objects
identity holds precisely when the values are equal and the shared value is at most
256; equal values above 256 live in distinct freshly allocated objects and compare
not-identical.  This models the assert on WELM.py line 43, which compares the two
row counts with the identity operator instead of equality. -/
def pyIntIs (a b : ℕ) : Bool := a == b && decide (a ≤ 256)

/-- The entire construction-time shape validation of WelmRegressor.__init__
(WELM.py lines 37-59): a single assert comparing the row count of the input matrix
with the row count of the target matrix using the identity operator.  The optional
weight matrix is stored without any check of its dimensions (lines 56-59), which is
why its dimensions parameter is ignored here. -/
def welmInitCheck (xRows tRows : ℕ) (_wDims : Option (ℕ × ℕ)) : Except WelmError Unit :=
  if pyIntIs xRows tRows then Except.ok () else Except.error WelmError.invalidShape

/-- The column check at the top of get_projected (WELM.py line 96): an ordinary
equality comparison between the training column count and the query column count. -/
def getProjectedColCheck (trainCols testCols : ℕ) : Except WelmError Unit :=
  if trainCols == testCols then Except.ok () else Except.error WelmError.invalidShape

/-- The L-by-M matrix np.append(bias, np.ones([L, M - 1]), axis=1) built inside
WelmRegressor.__build_hidden_layer_output_matrix__ (WELM.py lines 163-168): its
column 0 is the bias column and every later column is all ones.  This pure
definition is the matrix produced when M is at least 1; for M = 0 the code never
produces a matrix at all (np.ones rejects the negative dimension M - 1), an error
path carried by build_hidden_layer_output_matrix_checked below. -/
def biasMatrix (L M : ℕ) (bias : Fin L → ℚ) : Mtx L M :=
  fun j i => if (i : ℕ) = 0 then bias j else 1

/-- Shallow embedding of the successful path of
WelmRegressor.__build_hidden_layer_output_matrix__ (WELM.py lines 156-176):
temp_h = input_weight . data_mat^T, add the bias-and-ones matrix, transpose, and
apply the activation elementwise.  The method only reaches this computation for a
data matrix with at least one row; build_hidden_layer_output_matrix_checked wraps
this definition together with the 0-row ValueError path. -/
def build_hidden_layer_output_matrix {M N L : ℕ} (act : ℚ → ℚ)
    (inputWeight : Mtx L N) (bias : Fin L → ℚ) (dataMat : Mtx M N) : Mtx M L :=
  ((inputWeight * dataMatᵀ + biasMatrix L M bias)ᵀ).map act

/-- The hidden-layer builder including its error path: for a 0-row data matrix the
call np.ones([L, M - 1]) inside WelmRegressor.__build_hidden_layer_output_matrix__
(WELM.py lines 163-167) raises ValueError (negative dimensions are not allowed)
before any matrix is produced; for at least one row the method returns the matrix
of build_hidden_layer_output_matrix. -/
def build_hidden_layer_output_matrix_checked {M N L : ℕ} (act : ℚ → ℚ)
    (inputWeight : Mtx L N) (bias : Fin L → ℚ) (dataMat : Mtx M N) :
    Except WelmError (Mtx M L) :=
  if 0 < M then
    Except.ok (build_hidden_layer_output_matrix act inputWeight bias dataMat)
  else Except.error WelmError.valueError

/-- The hidden-layer entry prescribed by the spec sentence
H[i,j] = activation(dot(input_weight[j,:], X[i,:]) + bias[j]). -/
def specHiddenEntry {M N L : ℕ} (act : ℚ → ℚ) (inputWeight : Mtx L N)
    (bias : Fin L → ℚ) (X : Mtx M N) (i : Fin M) (j : Fin L) : ℚ :=
  act ((∑ k, inputWeight j k * X i k) + bias j)

/-- Abstract least-squares solver standing for np.linalg.lstsq: given the
coefficient matrix and the right-hand side of a square linear system it returns
some solution matrix.  The claims under study only constrain which system is
handed to it, so it is a parameter of the embedding. -/
abbrev LstsqFn : Type := ∀ n d : ℕ, Mtx n n → Mtx n d → Mtx n d

/-- Shallow embedding of WelmRegressor.__beta_m_is_greater_than_l__
(WELM.py lines 184-193), the tall-regime solve: lstsq(H^T W H + I_L / C, H^T W T). -/
def beta_m_is_greater_than_l {M L D : ℕ} (lstsq : LstsqFn)
    (H : Mtx M L) (W : Mtx M M) (T : Mtx M D) (C : ℚ) : Mtx L D :=
  let innerMat := Hᵀ * W * H
  let iByC := (1 : Mtx L L).map (· / C)
  let sumInnerCMat := innerMat + iByC
  let outerMat := Hᵀ * W * T
  lstsq L D sumInnerCMat outerMat

/-- Shallow embedding of WelmRegressor.__beta_l_is_greater_than_m__
(WELM.py lines 195-211), the wide-regime solve:
H^T . lstsq(W H H^T + I_M / C, W T). -/
def beta_l_is_greater_than_m {M L D : ℕ} (lstsq : LstsqFn)
    (H : Mtx M L) (W : Mtx M M) (T : Mtx M D) (C : ℚ) : Mtx L D :=
  let innerMat := W * H * Hᵀ
  let iByC := (1 : Mtx M M).map (· / C)
  let sumInnerCMat := innerMat + iByC
  let wMatDotTMat := W * T
  Hᵀ * lstsq M D sumInnerCMat wMatDotTMat

/-- The two solve regimes of the output-weight computation; the spec asks for an
explicit regime selector computed once from the shapes. -/
inductive Regime
  | wide
  | tall
deriving DecidableEq, Repr

/-- The branch condition of WelmRegressor.__build_output_weight_matrix__
(WELM.py lines 178-182): the wide regime exactly when M < L, otherwise tall. -/
def selectRegime (M L : ℕ) : Regime :=
  if M < L then Regime.wide else Regime.tall

/-- Shallow embedding of WelmRegressor.__build_output_weight_matrix__
(WELM.py lines 178-182). -/
def build_output_weight_matrix {M L D : ℕ} (lstsq : LstsqFn)
    (H : Mtx M L) (W : Mtx M M) (T : Mtx M D) (C : ℚ) : Mtx L D :=
  match selectRegime M L with
  | Regime.wide => beta_l_is_greater_than_m lstsq H W T C
  | Regime.tall => beta_m_is_greater_than_l lstsq H W T C

/-- The wide-regime output-weight formula exactly as the spec words it:
beta = H^T . solve(W.H.H^T + I_M/C, W.T), with the regularisation term written as
the scalar 1/C times the identity. -/
def specBetaWide {M L D : ℕ} (lstsq : LstsqFn)
    (H : Mtx M L) (W : Mtx M M) (T : Mtx M D) (C : ℚ) : Mtx L D :=
  Hᵀ * lstsq M D (W * (H * Hᵀ) + C⁻¹ • (1 : Mtx M M)) (W * T)

/-- The tall-regime output-weight formula exactly as the spec words it:
beta = solve(H^T.W.H + I_L/C, H^T.W.T). -/
def specBetaTall {M L D : ℕ} (lstsq : LstsqFn)
    (H : Mtx M L) (W : Mtx M M) (T : Mtx M D) (C : ℚ) : Mtx L D :=
  lstsq L D (Hᵀ * (W * H) + C⁻¹ • (1 : Mtx L L)) (Hᵀ * (W * T))

/-- The state of a trained WelmRegressor instance: every attribute assigned by
__init__ (WELM.py lines 37-88).  M training rows, N input features, L hidden
neurons, D output dimensions. -/
structure WelmModel (M N L D : ℕ) where
  trainMat : Mtx M N
  tMat : Mtx M D
  wMat : Mtx M M
  hyperParamC : ℚ
  activationFunction : ℚ → ℚ
  inputWeight : Mtx L N
  biasOfHiddenNeurons : Fin L → ℚ
  hMat : Mtx M L
  betaMat : Mtx L D
  trainedOutputMat : Mtx M D

/-- Shallow embedding of the body of WelmRegressor.__init__ after its shape assert
(WELM.py lines 37-88).  The randomly sampled input weight and bias are threaded in
as arguments, since the code draws them from process-wide randomness; a missing
weight matrix defaults to the M-by-M identity (line 57).  A trained instance
exists only for M at least 1: for a 0-row training set __init__ raises inside the
hidden-layer builder (the ValueError of
build_hidden_layer_output_matrix_checked), so theorems about a trained regressor
assume 0 < M. -/
def train {M N L D : ℕ} (X : Mtx M N) (T : Mtx M D) (act : ℚ → ℚ) (C : ℚ)
    (weightMat : Option (Mtx M M)) (inputWeight : Mtx L N) (bias : Fin L → ℚ)
    (lstsq : LstsqFn) : WelmModel M N L D :=
  let w := weightMat.getD (1 : Mtx M M)
  let h := build_hidden_layer_output_matrix act inputWeight bias X
  let beta := build_output_weight_matrix lstsq h w T C
  { trainMat := X
    tMat := T
    wMat := w
    hyperParamC := C
    activationFunction := act
    inputWeight := inputWeight
    biasOfHiddenNeurons := bias
    hMat := h
    betaMat := beta
    trainedOutputMat := h * beta }

/-- Shallow embedding of WelmRegressor.get_projected (WELM.py lines 90-101): check
that the query column count equals the training column count (the assert on line
96), then build the query hidden matrix with the stored input weight and bias —
which, for a 0-row query, raises the np.ones ValueError — and multiply by the
stored beta. -/
def get_projected {M N L D : ℕ} (model : WelmModel M N L D) (Mq Nq : ℕ)
    (Q : Matrix (Fin Mq) (Fin Nq) ℚ) : Except WelmError (Matrix (Fin Mq) (Fin D) ℚ) :=
  if h : N = Nq then
    match build_hidden_layer_output_matrix_checked model.activationFunction
        model.inputWeight model.biasOfHiddenNeurons
        (fun i j => Q i (Fin.cast h j)) with
    | Except.ok hMatTest => Except.ok (hMatTest * model.betaMat)
    | Except.error e => Except.error e
  else Except.error WelmError.invalidShape

/-- State-passing form of get_projected: the Python method reads attributes of self
and assigns none, so its action on the instance state is the identity, which the
embedding records by returning the model alongside the result. -/
def get_projected_stateful {M N L D : ℕ} (model : WelmModel M N L D) (Mq Nq : ℕ)
    (Q : Matrix (Fin Mq) (Fin Nq) ℚ) :
    Except WelmError (Matrix (Fin Mq) (Fin D) ℚ) × WelmModel M N L D :=
  (get_projected model Mq Nq Q, model)

/-- The value of the row-major flattening of a matrix at flat index k, as performed
by np.array(...).reshape(-1, dimensions): flat index k holds entry (k / n, k mod n).
Out-of-range indices (only possible when the matrix is empty) default to 0. -/
def entryAt {m n : ℕ} (A : Mtx m n) (k : ℕ) : ℚ :=
  if h : k / n < m ∧ k % n < n then A ⟨k / n, h.1⟩ ⟨k % n, h.2⟩ else 0

/-- Row-major flattening of a matrix into a list of its m * n entries, the first
step of the reshape(-1, dimensions) call in aed and eds (WELM.py lines 120-121 and
132-133). -/
def flatten {m n : ℕ} (A : Mtx m n) : List ℚ :=
  List.ofFn fun k : Fin (m * n) => entryAt A k

/-- numpy reshape(-1, d) on a flat list: succeeds exactly when d is positive and
divides the total element count, regrouping the flat data into rows of d
consecutive entries; otherwise numpy raises, modelled as none. -/
def reshapeRows (d : ℕ) (l : List ℚ) : Option (List (List ℚ)) :=
  if 0 < d ∧ d ∣ l.length then
    some (List.ofFn fun r : Fin (l.length / d) =>
      List.ofFn fun c : Fin d => l.getD ((r : ℕ) * d + c) 0)
  else none

/-- Per-row Euclidean distance np.sqrt(np.sum(np.square(p - t), axis=1)) for one
pair of reshaped rows. -/
noncomputable def rowDist (p t : List ℚ) : ℝ :=
  Real.sqrt (((p.zip t).map fun ab => ((ab.1 - ab.2 : ℚ) : ℝ) ^ 2).sum)

/-- Arithmetic mean of a list of reals, as numpy ndarray.mean on a nonempty
array.  numpy's mean of an empty array is NaN, which has no counterpart in the
real-number embedding (here the total division yields the junk value 0), so
theorems that read a mean as the number 0 assume the list is nonempty. -/
noncomputable def listMean (l : List ℝ) : ℝ := l.sum / l.length

/-- Shallow embedding of the static method WelmRegressor.eds (WELM.py lines
127-137): reshape both matrices into rows of dimensions entries, take the per-row
Euclidean distance of the difference, divide elementwise by the conversion
factor. -/
noncomputable def eds {m n : ℕ} (predictions targets : Mtx m n)
    (dimensions : ℕ) (conversionFactor : ℚ) : Option (List ℝ) :=
  match reshapeRows dimensions (flatten predictions),
      reshapeRows dimensions (flatten targets) with
  | some ps, some ts =>
      some ((ps.zip ts).map fun pt => rowDist pt.1 pt.2 / (conversionFactor : ℝ))
  | _, _ => none

/-- Shallow embedding of the static method WelmRegressor.aed (WELM.py lines
115-125): reshape both matrices into rows of dimensions entries, take the mean of
the per-row Euclidean distances, divide by the conversion factor. -/
noncomputable def aed {m n : ℕ} (predictions targets : Mtx m n)
    (dimensions : ℕ) (conversionFactor : ℚ) : Option ℝ :=
  match reshapeRows dimensions (flatten predictions),
      reshapeRows dimensions (flatten targets) with
  | some ps, some ts =>
      some (listMean ((ps.zip ts).map fun pt => rowDist pt.1 pt.2) /
        (conversionFactor : ℝ))
  | _, _ => none

/-- Shallow embedding of the static method WelmRegressor.rmse (WELM.py lines
139-146): mean over columns of the per-column mean over rows of the squared
elementwise difference.  Note the code takes no square root.  The rational
arithmetic models the nonempty case; np.average over an empty axis yields NaN in
the code (while the total division here yields the junk value 0), so theorems
that read rmse as the number 0 assume both dimensions are positive. -/
def rmse {m n : ℕ} (predictions targets : Mtx m n) : ℚ :=
  (∑ j, (∑ i, (predictions i j - targets i j) ^ 2) / (m : ℚ)) / (n : ℚ)

/-- WelmRegressor.get_trained_accuracy (WELM.py lines 103-107): rmse of the cached
trained output against the training targets. -/
def get_trained_accuracy {M N L D : ℕ} (model : WelmModel M N L D) : ℚ :=
  rmse model.trainedOutputMat model.tMat

/-- WelmRegressor.get_trained_average_distance (WELM.py lines 109-113): aed of the
cached trained output against the training targets, with the default dimensions 2
and conversion factor 1. -/
noncomputable def get_trained_average_distance {M N L D : ℕ}
    (model : WelmModel M N L D) : Option ℝ :=
  aed model.trainedOutputMat model.tMat 2 1

/-- State-passing form of get_trained_accuracy; the method assigns no attribute. -/
def get_trained_accuracy_stateful {M N L D : ℕ} (model : WelmModel M N L D) :
    ℚ × WelmModel M N L D :=
  (get_trained_accuracy model, model)

/-- State-passing form of get_trained_average_distance; the method assigns no
attribute. -/
noncomputable def get_trained_average_distance_stateful {M N L D : ℕ}
    (model : WelmModel M N L D) : Option ℝ × WelmModel M N L D :=
  (get_trained_average_distance model, model)

/-- Concrete 2-by-3 prediction matrix used to exhibit the reshape regrouping of the
metrics on a model whose output dimension is 3 rather than the default 2. -/
def samplePred : Mtx 2 3 := !![0, 0, 0; 0, 0, 0]

/-- Concrete 2-by-3 target matrix for the reshape regrouping example: its flat form
is 0, 3, 4, 0, 0, 0, which dimensions = 2 regroups into the rows (0, 3), (4, 0),
(0, 0), mixing coordinates of the two original rows. -/
def sampleTarg : Mtx 2 3 := !![0, 3, 4; 0, 0, 0]

theorem identity_map_div (n : ℕ) (C : ℚ) :
    (1 : Mtx n n).map (· / C) = C⁻¹ • (1 : Mtx n n) := by
  ext i j
  by_cases h : i = j <;>
    simp [Matrix.map_apply, Matrix.one_apply, h, div_eq_inv_mul]

/-- Claim C1.  The hidden matrix built by the code does not broadcast the bias: the
general formula actually computed adds bias[j] only on sample row 0 and adds the
constant 1 on every later sample row, because the code pads the bias column with
columns of ones (WELM.py lines 163-168).  At the concrete input with M = 2 samples,
one feature, one hidden neuron, zero weights, zero bias and hardlim activation, the
code yields H[1,0] = 1 while the spec formula
H[i,j] = activation(dot(input_weight[j,:], X[i,:]) + bias[j]) yields 0. -/
theorem hidden_layer_pads_ones_instead_of_broadcasting_bias :
    (∀ (M N L : ℕ) (act : ℚ → ℚ) (iw : Mtx L N) (bias : Fin L → ℚ)
       (X : Mtx M N) (i : Fin M) (j : Fin L),
       build_hidden_layer_output_matrix act iw bias X i j =
         act ((∑ k, iw j k * X i k) + (if (i : ℕ) = 0 then bias j else 1))) ∧
    build_hidden_layer_output_matrix ActFunc.hardlim (0 : Mtx 1 1)
      (fun _ => 0) (0 : Mtx 2 1) 1 0 = 1 ∧
    specHiddenEntry ActFunc.hardlim (0 : Mtx 1 1) (fun _ => 0) (0 : Mtx 2 1) 1 0 = 0 := by
  refine ⟨?_, ?_, ?_⟩
  · intro M N L act iw bias X i j
    simp [build_hidden_layer_output_matrix, Matrix.map_apply, Matrix.add_apply,
      Matrix.mul_apply, biasMatrix, mul_comm]
  · norm_num [build_hidden_layer_output_matrix, biasMatrix, ActFunc.hardlim,
      Matrix.mul_apply, Matrix.map_apply, Matrix.add_apply]
  · norm_num [specHiddenEntry, ActFunc.hardlim]

/-- Claim C2.  The construction-time row check, evaluated on equal row counts of 257:
because the source compares the two shape integers with the identity operator and
CPython interns only the integers up to 256, the assert rejects this well-formed
input.  The two sanity conjuncts show the check does reject genuinely different row
counts and does accept equal row counts in the interned range. -/
theorem init_row_check_rejects_equal_row_counts_above_256 :
    welmInitCheck 257 257 none = Except.error WelmError.invalidShape ∧
    welmInitCheck 5 4 none = Except.error WelmError.invalidShape ∧
    welmInitCheck 4 4 none = Except.ok () := by
  refine ⟨rfl, rfl, rfl⟩

/-- Claim C3.  The output-weight matrix computed at construction equals, in the wide
regime M < L, the spec formula beta = H^T.solve(W.H.H^T + I_M/C, W.T), and in the
tall regime M >= L the spec formula beta = solve(H^T.W.H + I_L/C, H^T.W.T), with
solve the abstract least-squares solver. -/
theorem output_weight_matrix_matches_spec_formulas {M L D : ℕ} (lstsq : LstsqFn)
    (H : Mtx M L) (W : Mtx M M) (T : Mtx M D) (C : ℚ) :
    build_output_weight_matrix lstsq H W T C =
      if M < L then specBetaWide lstsq H W T C else specBetaTall lstsq H W T C := by
  unfold build_output_weight_matrix selectRegime specBetaWide specBetaTall
    beta_l_is_greater_than_m beta_m_is_greater_than_l
  by_cases h : M < L <;>
    simp [h, identity_map_div, Matrix.mul_assoc]

/-- Claim C4.  The solve-branch selector chooses the wide regime exactly when
M < L, the tall regime exactly when L <= M, and on the boundary M = L it
deterministically selects the tall regime. -/
theorem branch_selector_wide_iff_lt_and_tall_on_boundary (M L : ℕ) :
    (selectRegime M L = Regime.wide ↔ M < L) ∧
    (selectRegime M L = Regime.tall ↔ L ≤ M) ∧
    selectRegime M M = Regime.tall := by
  refine ⟨?_, ?_, ?_⟩
  · unfold selectRegime
    split <;> simp_all
  · unfold selectRegime
    split <;> simp_all
  · simp [selectRegime]

/-- Claim C5, counterexample.  A weight matrix of dimensions 5-by-7 is malformed for
a training set with 2 rows, yet the whole construction-time shape validation accepts
it: the code stores the supplied weight matrix without any check. -/
theorem malformed_weight_matrix_accepted_at_construction :
    welmInitCheck 2 2 (some (5, 7)) = Except.ok () ∧ (5, 7) ≠ (2, 2) := by
  refine ⟨rfl, by decide⟩

/-- Claim C5, amended.  The construction-time validation is entirely independent of
the supplied weight-matrix dimensions (a malformed W is never rejected there); a row
mismatch between X and T is always rejected at construction, and a query whose
column count differs from the training column count is always rejected at
projection, where the acceptance of the projection check is exactly column
equality. -/
theorem shape_checks_cover_rows_and_query_columns_but_not_weight_matrix
    (xRows tRows trainCols testCols : ℕ) (wDims : Option (ℕ × ℕ)) :
    (welmInitCheck xRows tRows wDims = welmInitCheck xRows tRows none) ∧
    (xRows ≠ tRows → welmInitCheck xRows tRows wDims = Except.error WelmError.invalidShape) ∧
    (testCols ≠ trainCols → getProjectedColCheck trainCols testCols =
      Except.error WelmError.invalidShape) ∧
    (getProjectedColCheck trainCols testCols = Except.ok () ↔ trainCols = testCols) := by
  refine ⟨rfl, ?_, ?_, ?_⟩
  · intro h
    unfold welmInitCheck
    rw [if_neg (by simp [pyIntIs, h])]
  · intro h
    unfold getProjectedColCheck
    rw [if_neg (by simp only [beq_iff_eq]; exact fun hc => h hc.symm)]
  · unfold getProjectedColCheck
    split <;> simp_all

/-- Witness for the amended claim C5 at a concrete input: row counts 5 and 4
differ, and construction with a (well-formed or not) weight matrix is rejected. -/
theorem shape_checks_amended_witness :
    (5 : ℕ) ≠ 4 ∧ welmInitCheck 5 4 (some (4, 4)) = Except.error WelmError.invalidShape :=
  ⟨by decide,
   (shape_checks_cover_rows_and_query_columns_but_not_weight_matrix 5 4 0 0
     (some (4, 4))).2.1 (by decide)⟩

/-- Claim C6, counterexample.  A 0-row query whose column count matches the
training input is a query matrix for which the claim promises a (0 x D)
prediction, yet the code raises ValueError from np.ones([L, -1]) inside the
hidden-layer builder (WELM.py lines 163-167), so get_projected returns no
prediction matrix at all. -/
theorem projection_raises_on_empty_query :
    get_projected (train (0 : Mtx 1 1) (0 : Mtx 1 1) id 1 none (0 : Mtx 1 1)
        (fun _ => 0) (fun _ _ _ B => B)) 0 1 (0 : Matrix (Fin 0) (Fin 1) ℚ) =
      Except.error WelmError.valueError ∧
    ∀ R, get_projected (train (0 : Mtx 1 1) (0 : Mtx 1 1) id 1 none (0 : Mtx 1 1)
        (fun _ => 0) (fun _ _ _ B => B)) 0 1 (0 : Matrix (Fin 0) (Fin 1) ℚ) ≠
      Except.ok R := by
  refine ⟨rfl, fun R hR => ?_⟩
  have h1 : (Except.error WelmError.valueError :
      Except WelmError (Matrix (Fin 0) (Fin 1) ℚ)) = Except.ok R := hR
  exact Except.noConfusion h1

/-- Claim C6, amended.  For every trained regressor (a trained instance exists
only for at least one training row) and every query with at least one row and the
training column count, projection returns the query hidden matrix, built from the
same input weight and bias fixed at training, times the cached beta (a query-rows
by D matrix, as its type states); projection returns a prediction exactly when
the query column count matches and the query has at least one row; a column
mismatch fails with InvalidShape, and a 0-row matching-column query fails with
the numpy ValueError raised by the ones-padding. -/
theorem projection_formula_checks_columns_and_empty_query
    {M N L D Mq Nq : ℕ} (_hM : 0 < M) (X : Mtx M N) (T : Mtx M D) (act : ℚ → ℚ)
    (C : ℚ) (weightMat : Option (Mtx M M)) (iw : Mtx L N) (bias : Fin L → ℚ)
    (lstsq : LstsqFn) (Q : Matrix (Fin Mq) (Fin Nq) ℚ)
    (Qok : Matrix (Fin Mq) (Fin N) ℚ) :
    (0 < Mq → get_projected (train X T act C weightMat iw bias lstsq) Mq N Qok =
      Except.ok (build_hidden_layer_output_matrix act iw bias Qok *
        (train X T act C weightMat iw bias lstsq).betaMat)) ∧
    ((∃ R, get_projected (train X T act C weightMat iw bias lstsq) Mq Nq Q =
        Except.ok R) ↔ (Nq = N ∧ 0 < Mq)) ∧
    (Nq ≠ N → get_projected (train X T act C weightMat iw bias lstsq) Mq Nq Q =
      Except.error WelmError.invalidShape) ∧
    (Mq = 0 → get_projected (train X T act C weightMat iw bias lstsq) Mq N Qok =
      Except.error WelmError.valueError) := by
  refine ⟨?_, ?_, ?_, ?_⟩
  · intro hMq
    have hQ : (fun i j => Qok i (Fin.cast rfl j)) = Qok := by
      funext i j
      rfl
    simp [get_projected, build_hidden_layer_output_matrix_checked, train, hQ, hMq]
  · by_cases h : N = Nq
    · subst h
      rcases Nat.eq_zero_or_pos Mq with hMq | hMq
      · subst hMq
        simp [get_projected, build_hidden_layer_output_matrix_checked]
      · simp [get_projected, build_hidden_layer_output_matrix_checked, hMq]
    · simp only [get_projected, dif_neg h]
      constructor
      · rintro ⟨R, hR⟩
        cases hR
      · rintro ⟨hc, _⟩
        exact absurd hc.symm h
  · intro hne
    unfold get_projected
    rw [dif_neg (fun hc => hne hc.symm)]
  · intro hMq
    subst hMq
    simp [get_projected, build_hidden_layer_output_matrix_checked]

/-- Witness for the amended claim C6 at concrete inputs: a trained 1-row
1-feature model projects a nonempty matching-column query to its hidden matrix
times beta, and rejects a 2-column query with InvalidShape. -/
theorem projection_amended_witness :
    ((0 : ℕ) < 1 ∧ get_projected (train (0 : Mtx 1 1) (0 : Mtx 1 1) id 1 none
        (0 : Mtx 1 1) (fun _ => 0) (fun _ _ _ B => B)) 1 1
        (0 : Matrix (Fin 1) (Fin 1) ℚ) =
      Except.ok (build_hidden_layer_output_matrix id (0 : Mtx 1 1) (fun _ => 0)
        (0 : Matrix (Fin 1) (Fin 1) ℚ) *
        (train (0 : Mtx 1 1) (0 : Mtx 1 1) id 1 none (0 : Mtx 1 1) (fun _ => 0)
          (fun _ _ _ B => B)).betaMat)) ∧
    ((2 : ℕ) ≠ 1 ∧ get_projected (train (0 : Mtx 1 1) (0 : Mtx 1 1) id 1 none
        (0 : Mtx 1 1) (fun _ => 0) (fun _ _ _ B => B)) 1 2
        (0 : Matrix (Fin 1) (Fin 2) ℚ) = Except.error WelmError.invalidShape) :=
  ⟨⟨by decide,
    (projection_formula_checks_columns_and_empty_query (by decide) (0 : Mtx 1 1)
      (0 : Mtx 1 1) id 1 none (0 : Mtx 1 1) (fun _ => 0) (fun _ _ _ B => B)
      (0 : Matrix (Fin 1) (Fin 1) ℚ) (0 : Matrix (Fin 1) (Fin 1) ℚ)).1
      (by decide)⟩,
   ⟨by decide,
    (projection_formula_checks_columns_and_empty_query (by decide) (0 : Mtx 1 1)
      (0 : Mtx 1 1) id 1 none (0 : Mtx 1 1) (fun _ => 0) (fun _ _ _ B => B)
      (0 : Matrix (Fin 1) (Fin 2) ℚ) (0 : Matrix (Fin 1) (Fin 1) ℚ)).2.2.1
      (by decide)⟩⟩

theorem flatten_length {m n : ℕ} (A : Mtx m n) : (flatten A).length = m * n := by
  simp [flatten]

theorem index_bound {m n d : ℕ} (hdvd : d ∣ m * n) {r c : ℕ}
    (hr : r < m * n / d) (hc : c < d) : r * d + c < m * n := by
  obtain ⟨q, hq⟩ := hdvd
  rcases Nat.eq_zero_or_pos d with h0 | h0
  · subst h0
    simp [hq] at hr
  · have hrq : r < q := by
      rw [hq, Nat.mul_div_cancel_left q h0] at hr
      exact hr
    have h1 : r * d + c < (r + 1) * d := by
      rw [Nat.succ_mul]
      omega
    have h2 : (r + 1) * d ≤ q * d := Nat.mul_le_mul_right d hrq
    rw [hq, Nat.mul_comm d q]
    omega

theorem flatten_getD {m n : ℕ} (A : Mtx m n) (k : ℕ) (h : k < m * n) :
    (flatten A).getD k 0 = entryAt A k := by
  rw [List.getD_eq_getElem _ _ (by simpa [flatten_length] using h)]
  simp [flatten]

theorem reshapeRows_flatten_neg {m n : ℕ} (A : Mtx m n) (d : ℕ)
    (h : ¬(0 < d ∧ d ∣ m * n)) : reshapeRows d (flatten A) = none := by
  simp only [reshapeRows, flatten_length]
  rw [if_neg h]

theorem reshape_flatten {m n : ℕ} (A : Mtx m n) (d : ℕ) (hd : 0 < d)
    (hdvd : d ∣ m * n) :
    reshapeRows d (flatten A) =
      some (List.ofFn fun r : Fin (m * n / d) =>
        List.ofFn fun c : Fin d => entryAt A ((r : ℕ) * d + c)) := by
  have hlen : (flatten A).length = m * n := flatten_length A
  unfold reshapeRows
  rw [if_pos (by rw [hlen]; exact ⟨hd, hdvd⟩)]
  congr 1
  apply List.ext_getElem
  · simp [hlen]
  · intro k h1 h2
    rw [List.getElem_ofFn, List.getElem_ofFn]
    refine congrArg List.ofFn (funext fun c => ?_)
    have hk : k < m * n / d := by
      simpa [hlen] using h2
    exact flatten_getD A _ (index_bound hdvd hk c.isLt)

theorem listSum_map_div (l : List ℝ) (c : ℝ) :
    (l.map fun x => x / c).sum = l.sum / c := by
  induction l with
  | nil => simp
  | cons a t ih => simp [ih, add_div]

theorem listMean_map_div (l : List ℝ) (c : ℝ) :
    listMean (l.map fun x => x / c) = listMean l / c := by
  unfold listMean
  rw [List.length_map, listSum_map_div]
  exact div_right_comm _ _ _

/-- Claim C7.  For every pair of equal-sized prediction and target matrices and any
dimensions parameter and conversion factor, the average Euclidean distance returned
by aed is the arithmetic mean of the per-row distance sequence returned by eds
(and the two calls succeed or fail together). -/
theorem aed_is_mean_of_eds {m n : ℕ} (P T : Mtx m n) (d : ℕ) (cf : ℚ) :
    aed P T d cf = (eds P T d cf).map listMean := by
  by_cases hcond : 0 < d ∧ d ∣ m * n
  · simp only [aed, eds, reshape_flatten P d hcond.1 hcond.2,
      reshape_flatten T d hcond.1 hcond.2, Option.map_some']
    congr 1
    rw [show (fun pt : List ℚ × List ℚ => rowDist pt.1 pt.2 / (cf : ℝ)) =
        ((fun x => x / (cf : ℝ)) ∘ fun pt : List ℚ × List ℚ => rowDist pt.1 pt.2)
        from rfl]
    rw [← List.map_map, listMean_map_div]
  · simp [aed, eds, reshapeRows_flatten_neg P d hcond,
      reshapeRows_flatten_neg T d hcond]

theorem zip_ofFn {α β : Type} {k : ℕ} (f : Fin k → α) (g : Fin k → β) :
    (List.ofFn f).zip (List.ofFn g) = List.ofFn fun i => (f i, g i) := by
  apply List.ext_getElem
  · simp
  · intro i h1 h2
    simp [List.getElem_zip]

theorem rowDist_ofFn {d : ℕ} (f g : Fin d → ℚ) :
    rowDist (List.ofFn f) (List.ofFn g) =
      Real.sqrt (((∑ c, (f c - g c) ^ 2 : ℚ) : ℝ)) := by
  unfold rowDist
  rw [zip_ofFn, List.map_ofFn, List.sum_ofFn]
  congr 1
  push_cast
  rfl

theorem entryAt_apply {m n : ℕ} (A : Mtx m n) (i : Fin m) (j : Fin n) :
    entryAt A ((i : ℕ) * n + (j : ℕ)) = A i j := by
  have hdiv : ((i : ℕ) * n + (j : ℕ)) / n = (i : ℕ) := by
    rw [Nat.add_comm, Nat.add_mul_div_right _ _ (Nat.lt_of_le_of_lt (Nat.zero_le _) j.isLt),
      Nat.div_eq_of_lt j.isLt, Nat.zero_add]
  have hmod : ((i : ℕ) * n + (j : ℕ)) % n = (j : ℕ) := by
    rw [Nat.add_comm, Nat.add_mul_mod_self_right, Nat.mod_eq_of_lt j.isLt]
  have hcond : ((i : ℕ) * n + (j : ℕ)) / n < m ∧ ((i : ℕ) * n + (j : ℕ)) % n < n := by
    constructor
    · rw [hdiv]
      exact i.isLt
    · rw [hmod]
      exact j.isLt
  rw [entryAt, dif_pos hcond]
  have e1 : (⟨((i : ℕ) * n + (j : ℕ)) / n, hcond.1⟩ : Fin m) = i := Fin.ext hdiv
  have e2 : (⟨((i : ℕ) * n + (j : ℕ)) % n, hcond.2⟩ : Fin n) = j := Fin.ext hmod
  rw [e1, e2]

theorem matrix_eq_of_entryAt {m n : ℕ} (P T : Mtx m n)
    (h : ∀ k, k < m * n → entryAt P k = entryAt T k) : P = T := by
  ext i j
  have hb : (i : ℕ) * n + (j : ℕ) < m * n := by
    have h1 : (i : ℕ) * n + (j : ℕ) < ((i : ℕ) + 1) * n := by
      rw [Nat.succ_mul]
      omega
    exact lt_of_lt_of_le h1 (Nat.mul_le_mul_right n (Nat.succ_le_of_lt i.isLt))
  have := h _ hb
  rwa [entryAt_apply, entryAt_apply] at this

theorem list_sum_eq_zero_iff_of_nonneg (l : List ℝ) (h : ∀ x ∈ l, 0 ≤ x) :
    l.sum = 0 ↔ ∀ x ∈ l, x = 0 := by
  induction l with
  | nil => simp
  | cons a t ih =>
    simp only [List.sum_cons, List.mem_cons]
    have ha : 0 ≤ a := h a (by simp)
    have ht : ∀ x ∈ t, 0 ≤ x := fun x hx => h x (by simp [hx])
    have hts : 0 ≤ t.sum := List.sum_nonneg ht
    constructor
    · intro h0
      have ha0 : a = 0 := by linarith
      have hts0 : t.sum = 0 := by linarith
      intro x hx
      rcases hx with rfl | hx
      · exact ha0
      · exact (ih ht).mp hts0 x hx
    · intro h0
      have h1 : a = 0 := h0 a (Or.inl rfl)
      have h2 : t.sum = 0 := (ih ht).mpr fun x hx => h0 x (Or.inr hx)
      rw [h1, h2, add_zero]

theorem aed_regrouped {m n : ℕ} (P T : Mtx m n) (d : ℕ) (cf : ℚ) (hd : 0 < d)
    (hdvd : d ∣ m * n) :
    aed P T d cf = some (listMean (List.ofFn fun r : Fin (m * n / d) =>
      Real.sqrt (((∑ c : Fin d,
        (entryAt P ((r : ℕ) * d + c) - entryAt T ((r : ℕ) * d + c)) ^ 2 : ℚ) : ℝ))) /
      (cf : ℝ)) := by
  simp only [aed, reshape_flatten P d hd hdvd, reshape_flatten T d hd hdvd]
  rw [zip_ofFn, List.map_ofFn]
  refine congrArg some (congrArg (· / ((cf : ℚ) : ℝ)) (congrArg listMean
    (congrArg List.ofFn (funext fun r => ?_))))
  simp [Function.comp, rowDist_ofFn]

/-- Claim C8, counterexample.  At the pair of equal 1-by-1 zero matrices, aed (with
its default dimensions 2) does not return 0 at all: reshape(-1, 2) fails on a
single element, so the claimed equivalence between aed being zero and equality of
the matrices is false there. -/
theorem aed_zero_iff_fails_on_equal_singletons :
    ¬ ((aed (0 : Mtx 1 1) (0 : Mtx 1 1) 2 1 = some 0) ↔
        (0 : Mtx 1 1) = (0 : Mtx 1 1)) := by
  intro h
  have h2 : aed (0 : Mtx 1 1) (0 : Mtx 1 1) 2 1 = some 0 := h.mpr rfl
  have h3 : aed (0 : Mtx 1 1) (0 : Mtx 1 1) 2 1 = none := by
    simp [aed, reshapeRows_flatten_neg (0 : Mtx 1 1) 2 (by decide)]
  rw [h3] at h2
  cases h2

/-- Claim C8, amended.  For every pair of equal-shaped nonempty prediction and
target matrices, rmse is zero exactly when the matrices are equal; and provided
additionally the total element count is a multiple of the default dimensions 2
(otherwise aed fails to return a value, as the counterexample shows), aed returns
zero exactly when the matrices are equal.  The nonemptiness restrictions are
forced by the code: on empty matrices np.average and ndarray.mean produce NaN,
not 0, so neither equivalence holds there. -/
theorem rmse_zero_iff_eq_and_aed_zero_iff_eq_when_divisible {m n : ℕ}
    (P T : Mtx m n) :
    (0 < m → 0 < n → (rmse P T = 0 ↔ P = T)) ∧
    (0 < m * n → 2 ∣ m * n → (aed P T 2 1 = some 0 ↔ P = T)) := by
  have key : rmse P T = (∑ j, ∑ i, (P i j - T i j) ^ 2) / ((m : ℚ) * n) := by
    unfold rmse
    rw [← Finset.sum_div, div_div]
  constructor
  · intro hm hn
    constructor
    · intro h
      ext i j
      rw [key, div_eq_zero_iff] at h
      have hmn : ((m : ℚ) * n) ≠ 0 :=
        mul_ne_zero (Nat.cast_ne_zero.mpr hm.ne')
          (Nat.cast_ne_zero.mpr hn.ne')
      rcases h with h | h
      · rw [Finset.sum_eq_zero_iff_of_nonneg
          (fun j _ => Finset.sum_nonneg fun i _ => sq_nonneg _)] at h
        have hj := h j (Finset.mem_univ j)
        rw [Finset.sum_eq_zero_iff_of_nonneg (fun i _ => sq_nonneg _)] at hj
        have hij := hj i (Finset.mem_univ i)
        have := (pow_eq_zero_iff two_ne_zero).mp hij
        exact sub_eq_zero.mp this
      · exact absurd h hmn
    · intro h
      subst h
      simp [key]
  · intro hpos hdvd
    rw [aed_regrouped P T 2 1 (by norm_num) hdvd]
    rw [Option.some_inj]
    rw [show ((1 : ℚ) : ℝ) = 1 from Rat.cast_one, div_one]
    unfold listMean
    rw [div_eq_zero_iff]
    constructor
    · intro h
      rcases h with h | hlen
      · -- the sum of the nonnegative distances vanishes
        rw [list_sum_eq_zero_iff_of_nonneg _ (by
          intro x hx
          rw [List.mem_ofFn] at hx
          obtain ⟨r, rfl⟩ := hx
          exact Real.sqrt_nonneg _)] at h
        apply matrix_eq_of_entryAt
        intro k hk
        have hr : k / 2 < m * n / 2 := Nat.div_lt_div_of_lt_of_dvd hdvd hk
        have hc : k % 2 < 2 := Nat.mod_lt _ (by norm_num)
        have hmem := h (Real.sqrt (((∑ c : Fin 2,
          (entryAt P (((⟨k / 2, hr⟩ : Fin (m * n / 2)) : ℕ) * 2 + c) -
            entryAt T (((⟨k / 2, hr⟩ : Fin (m * n / 2)) : ℕ) * 2 + c)) ^ 2 : ℚ) : ℝ)))
          (by
            rw [List.mem_ofFn]
            exact ⟨⟨k / 2, hr⟩, rfl⟩)
        have hsq : ((∑ c : Fin 2,
            (entryAt P ((k / 2) * 2 + c) - entryAt T ((k / 2) * 2 + c)) ^ 2 : ℚ) : ℝ) = 0 := by
          refine (Real.sqrt_eq_zero ?_).mp hmem
          exact_mod_cast Finset.sum_nonneg fun c _ => sq_nonneg _
        have hq : (∑ c : Fin 2,
            (entryAt P ((k / 2) * 2 + c) - entryAt T ((k / 2) * 2 + c)) ^ 2 : ℚ) = 0 := by
          exact_mod_cast hsq
        rw [Finset.sum_eq_zero_iff_of_nonneg (fun c _ => sq_nonneg _)] at hq
        have hck := hq ⟨k % 2, hc⟩ (Finset.mem_univ _)
        have heq : entryAt P ((k / 2) * 2 + k % 2) = entryAt T ((k / 2) * 2 + k % 2) :=
          sub_eq_zero.mp ((pow_eq_zero_iff two_ne_zero).mp hck)
        have hk2 : (k / 2) * 2 + k % 2 = k := by omega
        rwa [hk2] at heq
      · -- the distance list cannot be empty when the element count is positive
        have hq0 : m * n / 2 = 0 := by
          simpa using hlen
        have hmn : m * n = 0 := by omega
        exact absurd hmn hpos.ne'
    · intro h
      subst h
      left
      simp [List.sum_ofFn]

/-- Witness for the amended claim C8 at a concrete input: the 1-by-2 zero matrices
are equal and nonempty, their element count 2 is a multiple of the default
dimensions 2, and both rmse and aed return zero. -/
theorem metrics_zero_witness :
    rmse (0 : Mtx 1 2) (0 : Mtx 1 2) = 0 ∧
    aed (0 : Mtx 1 2) (0 : Mtx 1 2) 2 1 = some 0 :=
  ⟨((rmse_zero_iff_eq_and_aed_zero_iff_eq_when_divisible (0 : Mtx 1 2) 0).1
      (by decide) (by decide)).mpr rfl,
   ((rmse_zero_iff_eq_and_aed_zero_iff_eq_when_divisible (0 : Mtx 1 2) 0).2
      (by decide) (by decide)).mpr rfl⟩

/-- Claim C10.  For any equal-sized pair whose total element count is a multiple of
the dimensions parameter, eds succeeds and returns one distance per regrouped row
of d consecutive flattened entries, regardless of the matrices' own column count
(so get_trained_average_distance, which is aed at the default dimensions 2, silently
regroups coordinates across rows whenever the target dimension D differs from 2);
get_trained_average_distance is exactly aed of the cached trained output against
the targets at dimensions 2 and conversion factor 1. -/
theorem metrics_reshape_regroups_flattened_entries {m n : ℕ} (P T : Mtx m n)
    (d : ℕ) (cf : ℚ) (hd : 0 < d) (hdvd : d ∣ m * n) :
    eds P T d cf = some (List.ofFn fun r : Fin (m * n / d) =>
      Real.sqrt (((∑ c : Fin d,
        (entryAt P ((r : ℕ) * d + c) - entryAt T ((r : ℕ) * d + c)) ^ 2 : ℚ) : ℝ)) /
      (cf : ℝ)) ∧
    (∀ (M N L D : ℕ) (model : WelmModel M N L D),
      get_trained_average_distance model = aed model.trainedOutputMat model.tMat 2 1) := by
  constructor
  · simp only [eds, reshape_flatten P d hd hdvd, reshape_flatten T d hd hdvd]
    rw [zip_ofFn, List.map_ofFn]
    refine congrArg some (congrArg List.ofFn (funext fun r => ?_))
    simp [Function.comp, rowDist_ofFn]
  · intro M N L D model
    rfl

/-- Witness for claim C10 at a concrete input: a pair of 2-by-3 matrices (three
output coordinates per row, as a model with D = 3 would produce) regrouped by the
default dimensions 2 into three two-entry rows that mix coordinates of the two
original rows. -/
theorem metrics_reshape_witness :
    eds samplePred sampleTarg 2 1 = some (List.ofFn fun r : Fin (2 * 3 / 2) =>
      Real.sqrt (((∑ c : Fin 2,
        (entryAt samplePred ((r : ℕ) * 2 + c) - entryAt sampleTarg ((r : ℕ) * 2 + c)) ^ 2 : ℚ) : ℝ)) /
      ((1 : ℚ) : ℝ)) ∧
    (∀ (M N L D : ℕ) (model : WelmModel M N L D),
      get_trained_average_distance model = aed model.trainedOutputMat model.tMat 2 1) :=
  metrics_reshape_regroups_flattened_entries samplePred sampleTarg 2 1
    (by decide) (by decide)

/-- Claim C9.  Two successive projection calls with the same query yield the same
output, and neither projection nor either trained-metric call changes any field of
the model: in the state-passing embedding each call returns the model unchanged. -/
theorem projection_and_metrics_mutate_nothing_and_idempotent
    {M N L D Mq Nq : ℕ} (model : WelmModel M N L D)
    (Q : Matrix (Fin Mq) (Fin Nq) ℚ) :
    (get_projected_stateful model Mq Nq Q).1 =
      (get_projected_stateful (get_projected_stateful model Mq Nq Q).2 Mq Nq Q).1 ∧
    (get_projected_stateful model Mq Nq Q).2 = model ∧
    (get_trained_accuracy_stateful model).2 = model ∧
    (get_trained_average_distance_stateful model).2 = model :=
  ⟨rfl, rfl, rfl, rfl⟩

end Welm
